import Mathlib

/-!
Verification of the MaterialX `MaterialXGenOslNodes` component: a shallow
embedding of the two `OslNodesShaderGenerator::generate` variants
(`src/unnamed/part_000`, target "genoslnodes", and `src/unnamed/part_001`,
target "genosl"), of their common `createShader` interface-publishing code,
and of the batch driver loop in
`src/source/MaterialXGenOslNodes/LibsToOso.cpp`, together with theorems
settling the specification claims about them.
-/

namespace MtlxOslNodes

/-! ## Basic string machinery

The upstream `OslNodesSyntax` object (name sanitization, value rendering,
type names) is repository code that is not part of the sources at hand, so
those operations are modelled from the spec; everything else below is a
direct translation of the C++ sources.
-/

/-- Modelled from the spec: the ambient floating-point formatting mode of the
MaterialX `Value` rendering layer (`Value::FloatFormatDefault` /
`Value::FloatFormatFixed`); `part_001` installs the fixed mode for the
duration of a `generate` call via the RAII helper `ScopedFloatFormatting`. -/
inductive FloatFormat where
  | Default
  | Fixed
deriving DecidableEq

/-- Modelled from the spec: a stored literal value together with its two
textual renderings, one per floating-point formatting mode.  The spec states
only that the rendering of a value depends on the ambient mode ("Request
fixed floating-point notation for consistency across targets"), so the value
is represented by the pair of strings the renderer would produce. -/
structure LitValue where
  fixedRepr : String
  defaultRepr : String
deriving DecidableEq

/-- Modelled from the spec: render a literal value under a formatting mode. -/
def renderValue (fmt : FloatFormat) (v : LitValue) : String :=
  match fmt with
  | .Fixed => v.fixedRepr
  | .Default => v.defaultRepr

/-- Modelled from the spec: replace a character that cannot appear in a valid
target identifier with an underscore. -/
def sanitizeChar (c : Char) : Char :=
  if c.isAlphanum || c == '_' then c else '_'

/-- Modelled from the spec: `Syntax::makeValidName`, which sanitizes a name
into a valid target identifier by replacing invalid characters. -/
def makeValidName (s : String) : String :=
  String.mk (s.data.map sanitizeChar)

/-- Modelled from the spec: whether a string is a valid target identifier
(nonempty, only alphanumeric characters and underscores). -/
def isValidIdentifier (s : String) : Bool :=
  !s.data.isEmpty && s.data.all (fun c => c.isAlphanum || c == '_')

/-! ## Data model

Read-only view of the shader graph handed to the generators, following §3 of
the spec and the accessors the C++ sources call on it. -/

/-- The upstream end of an input's connection: either the graph boundary
itself (`connection->getNode() == &graph`) or an internal node identified by
name, together with the upstream output's name (`connection->getName()`). -/
structure Connection where
  fromGraph : Bool
  nodeName : String
  outputName : String
deriving DecidableEq

/-- A node input.  `ty` stores the syntax type name that
`_syntax->getTypeName(input->getType())` yields for it; `value` is the
optional stored literal (`input->getValue()`); `connection` is
`input->getConnection()` (absent models a null pointer). -/
structure Input where
  name : String
  ty : String
  isDefault : Bool
  value : Option LitValue
  connection : Option Connection
deriving DecidableEq

/-- A node output: name and the name of its type (`getType().getName()`). -/
structure Output where
  name : String
  tyName : String
deriving DecidableEq

/-- A shader node: unique name, ordered inputs, the primary output
(`node->getOutput(0)`), and the name of its node definition. -/
structure Node where
  name : String
  inputs : List Input
  output0 : Output
  nodeDefName : String
deriving DecidableEq

/-- A graph-level interface socket.  `connections` lists the internal usages
(`inputSocket->getConnections()`); `editable` models
`graph->isEditable(*inputSocket)`. -/
structure Socket where
  name : String
  connections : List String
  editable : Bool
deriving DecidableEq

/-- The shader graph: nodes in graph order plus the graph-level interface
sockets. -/
structure Graph where
  nodes : List Node
  inputSockets : List Socket
  outputSockets : List Socket
deriving DecidableEq

/-- A source-code implementation entry: entry-point function name
(`impl->getFunction()`) and source file path (`impl->getFile()`). -/
structure Implementation where
  function : String
  file : String
deriving DecidableEq

/-- The element a `NodeDef`'s per-target implementation map can hold: a
source-code `Implementation`, or some other interface element (such as a
nodegraph) for which `asA<Implementation>()` yields null. -/
inductive ImplElement where
  | implementation (function : String) (file : String)
  | nodeGraph
deriving DecidableEq

/-- `elem->asA<Implementation>()`: succeeds exactly on source-code
implementations. -/
def asImplementation : ImplElement → Option Implementation
  | .implementation f p => some ⟨f, p⟩
  | .nodeGraph => none

/-- A node definition: name and per-target implementation map. -/
structure NodeDef where
  name : String
  implementations : List (String × ImplElement)
deriving DecidableEq

/-- `nodeDef->getImplementation(target)`: first implementation element
registered for the target, or null. -/
def NodeDef.getImplementation (nd : NodeDef) (target : String) : Option ImplElement :=
  (nd.implementations.find? (fun p => p.1 == target)).map (fun p => p.2)

/-- The document, as the generators use it: a catalog of node definitions. -/
def Doc := List NodeDef

/-- `document->getNodeDef(name)`: lookup by name, null if absent. -/
def getNodeDef (doc : Doc) (n : String) : Option NodeDef :=
  doc.find? (fun nd => nd.name == n)

/-! ## Emitted statements -/

/-- One emitted line of the shader-network description:
`param <type> <name> <value> ;`, `shader <entryPoint> <instanceName> ;`, or
`connect <from>.<output> <to>.<input> ;`. -/
inductive Stmt where
  | param (ty nm value : String)
  | shaderDecl (entryPoint instanceName : String)
  | connect (fromNode fromOutput toNode toInput : String)
deriving DecidableEq

/-- `paramString` / the `shader` line / `connectString` from the sources. -/
def renderStmt : Stmt → String
  | .param ty nm value => "param " ++ ty ++ " " ++ nm ++ " " ++ value ++ " ;"
  | .shaderDecl ep inst => "shader " ++ ep ++ " " ++ inst ++ " ;"
  | .connect fn fo tn ti => "connect " ++ fn ++ "." ++ fo ++ " " ++ tn ++ "." ++ ti ++ " ;"

/-- The stage text: each `emitLine` call appends the line and a newline. -/
def renderLines (lines : List Stmt) : String :=
  String.join (lines.map (fun s => renderStmt s ++ "\n"))

/-- Whether a statement is a deferred connection statement. -/
def isConnectStmt : Stmt → Bool
  | .connect _ _ _ _ => true
  | _ => false

/-! ## Ordered string set

`std::set<std::string>` keeps its elements deduplicated in lexicographic
order and iterates them in that order.  It is modelled as a strictly sorted
duplicate-free list with ordered insertion. -/

/-- Strict lexicographic order on character lists (the order underlying
`std::string::operator<`). -/
def ltChars : List Char → List Char → Bool
  | _, [] => false
  | [], _ :: _ => true
  | a :: as, b :: bs => if a < b then true else if b < a then false else ltChars as bs

/-- Strict lexicographic order on strings. -/
def strLt (a b : String) : Bool :=
  ltChars a.data b.data

/-- `std::set` insertion: place the new element at its ordered position, or
leave the set unchanged if it is already present. -/
def setInsert (x : String) : List String → List String
  | [] => [x]
  | y :: ys =>
    if strLt x y then x :: y :: ys
    else if strLt y x then y :: setInsert x ys
    else y :: ys

/-! ## Generator variant of `src/unnamed/part_000` (target "genoslnodes") -/

namespace Part000

/-- The slice of `GenContext` that `generate` reads: the
`oslNodesConnectCiWrapper` option, `resolveSourceFile` (composed with
`FilePath::asString`), and the ambient float-formatting mode (this variant
never changes it). -/
structure GenContext where
  oslNodesConnectCiWrapper : Bool
  resolveSourceFile : String → String
  floatFormat : FloatFormat

/-- Modelled from the spec: `_syntax->getValue(input)` renders the input's
stored literal under the ambient formatting mode; an input with no stored
value renders to a type default, unconstrained by the spec and represented
here by the empty string (no claim depends on that case). -/
def syntaxValue (fmt : FloatFormat) (i : Input) : String :=
  match i.value with
  | some v => renderValue fmt v
  | none => ""

/-- The per-input body of the node loop (part_000 lines 57-84): skip default
inputs; for an input that is unconnected or connected to the graph boundary,
emit one `param` statement with sanitized name unless the raw name is in the
fixed exclusion set or the value renders to the no-op sentinel; for an input
connected to an internal node, defer one `connect` statement built from the
sanitized upstream-output and input names.  Returns (emitted param lines,
deferred connection lines). -/
def emitInput (fmt : FloatFormat) (nodeName : String) (i : Input) : List Stmt × List Stmt :=
  if i.isDefault then ([], [])
  else
    let inputName := makeValidName i.name
    let paramCase : List Stmt × List Stmt :=
      if i.name == "backsurfaceshader" || i.name == "displacementshader" then ([], [])
      else if syntaxValue fmt i == "null_closure()" then ([], [])
      else ([Stmt.param i.ty inputName (syntaxValue fmt i)], [])
    match i.connection with
    | none => paramCase
    | some c =>
      if c.fromGraph then paramCase
      else ([], [Stmt.connect c.nodeName (makeValidName c.outputName) nodeName inputName])

/-- State threaded through the node loop: the stage lines so far, the
deferred connection list, the `osoPaths` set, and the last declared node's
name and primary output.  `lastOutput = none` models the uninitialized
`ShaderOutput* lastOutput` pointer before any node assigned it. -/
structure LoopState where
  lines : List Stmt
  connections : List Stmt
  osoPaths : List String
  lastNodeName : String
  lastOutput : Option Output
deriving DecidableEq

/-- The state at entry of the node loop (`lastNodeName` default-constructed
empty, `lastOutput` uninitialized, everything else empty). -/
def initState : LoopState :=
  ⟨[], [], [], "", none⟩

/-- Result of the node loop.  `noShader` models the clean `return nullptr`
taken when `asA<Implementation>()` yields null; `crash` models the undefined
behavior of calling through a null pointer (`getNodeDef` returning null, or
`getImplementation` returning null that is then dereferenced by
`->asA<Implementation>()`). -/
inductive NodesResult where
  | ok (st : LoopState)
  | noShader
  | crash
deriving DecidableEq

/-- The node loop of `generate` (part_000 lines 54-105), one node at a time:
emit the param lines and defer the connection lines for the node's inputs,
record the primary output, resolve the node definition and its
"genoslnodes" implementation, record the implementation's source file in the
`osoPaths` set, and emit the node's `shader` declaration. -/
def genNodes (doc : Doc) (fmt : FloatFormat) : List Node → LoopState → NodesResult
  | [], st => .ok st
  | n :: rest, st =>
    let ps := n.inputs.flatMap (fun i => (emitInput fmt n.name i).1)
    let cs := n.inputs.flatMap (fun i => (emitInput fmt n.name i).2)
    let st1 : LoopState :=
      { st with
        lines := st.lines ++ ps
        connections := st.connections ++ cs
        lastOutput := some n.output0 }
    match getNodeDef doc n.nodeDefName with
    | none => .crash
    | some nd =>
      match nd.getImplementation "genoslnodes" with
      | none => .crash
      | some el =>
        match asImplementation el with
        | none => .noShader
        | some impl =>
          genNodes doc fmt rest
            { st1 with
              osoPaths := setInsert impl.file st1.osoPaths
              lines := st1.lines ++ [Stmt.shaderDecl impl.function n.name]
              lastNodeName := n.name }

/-- The comma-joined path string built by part_000 lines 124-133: start from
an empty string and an empty separator, append `separator + path` for each
set element in order, switching the separator to "," after the first. -/
def joinPaths (parts : List String) : String :=
  (parts.foldl (fun (acc : String × String) p => (acc.1 ++ acc.2 ++ p, ",")) ("", "")).1

/-- The generated shader, as far as the claims observe it: the stage lines
and the "osoPath" attribute string. -/
structure Shader where
  lines : List Stmt
  osoPathAttr : String
deriving DecidableEq

/-- Result of `generate`: a shader, the clean `nullptr` return, or undefined
behavior. -/
inductive GenResult where
  | ok (shader : Shader)
  | noShader
  | crash
deriving DecidableEq

/-- `OslNodesShaderGenerator::generate` of part_000 (lines 39-138): run the
node loop, flush the deferred connections, optionally append the
test-support `setCi` sink declaration and its connection (reading the
tracked last node name and primary output), and set the "osoPath" attribute
to the comma-joined resolved path set. -/
def generate (doc : Doc) (g : Graph) (ctx : GenContext) : GenResult :=
  match genNodes doc ctx.floatFormat g.nodes initState with
  | .noShader => .noShader
  | .crash => .crash
  | .ok st =>
    let body := st.lines ++ st.connections
    let attr := joinPaths (st.osoPaths.map ctx.resolveSourceFile)
    if ctx.oslNodesConnectCiWrapper then
      match st.lastOutput with
      | none => .crash
      | some out =>
        .ok ⟨body ++ [Stmt.shaderDecl "setCi" "root",
              Stmt.connect st.lastNodeName out.name "root" (out.tyName ++ "_input")],
             attr⟩
    else
      .ok ⟨body, attr⟩

end Part000

/-! ## Generator variant of `src/unnamed/part_001` (target "genosl") -/

namespace Part001

/-- Strip the "ND_" naming-convention marker from a node definition name:
`nodeDefName.size() > 3 && nodeDefName.substr(0, 3) == "ND_"` (part_001
lines 66-71 and LibsToOso.cpp lines 232-236). -/
def stripND (s : String) : String :=
  match s.data with
  | 'N' :: 'D' :: '_' :: c :: rest => String.mk (c :: rest)
  | _ => s

/-- The per-input body of the node loop (part_001 lines 43-64): skip inputs
without a stored value, then default inputs; dereference the connection
(undefined behavior, `none`, if it is null); for a boundary connection emit
one `param` statement with the raw input name and fixed-notation value,
unless the name is in the fixed exclusion set; for an internal connection
defer one `connect` statement built from the raw names. -/
def emitInput (nodeName : String) (i : Input) : Option (List Stmt × List Stmt) :=
  if i.value.isNone then some ([], [])
  else if i.isDefault then some ([], [])
  else
    match i.connection with
    | none => none
    | some c =>
      if c.fromGraph then
        if i.name == "backsurfaceshader" || i.name == "displacementshader" then some ([], [])
        else some ([Stmt.param i.ty i.name (Part000.syntaxValue .Fixed i)], [])
      else
        some ([], [Stmt.connect c.nodeName c.outputName nodeName i.name])

/-- Fold `emitInput` over a node's inputs, propagating undefined behavior. -/
def emitInputs (nodeName : String) : List Input → Option (List Stmt × List Stmt)
  | [] => some ([], [])
  | i :: rest =>
    match emitInput nodeName i with
    | none => none
    | some (ps, cs) =>
      match emitInputs nodeName rest with
      | none => none
      | some (ps', cs') => some (ps ++ ps', cs ++ cs')

/-- The node loop of part_001 (lines 40-74): per node, emit the param lines,
defer the connection lines, and emit a `shader` declaration whose entry
point is the node definition name with "ND_" stripped. -/
def genNodes : List Node → List Stmt × List Stmt → Option (List Stmt × List Stmt)
  | [], acc => some acc
  | n :: rest, (lines, conns) =>
    match emitInputs n.name n.inputs with
    | none => none
    | some (ps, cs) =>
      genNodes rest (lines ++ ps ++ [Stmt.shaderDecl (stripND n.nodeDefName) n.name], conns ++ cs)

/-- Result of part_001's `generate`: the emitted lines, or undefined
behavior from the unguarded connection dereference. -/
inductive GenResult where
  | ok (lines : List Stmt)
  | crash
deriving DecidableEq

/-- `OslNodesShaderGenerator::generate` of part_001 (lines 29-81): install
fixed floating-point formatting for the duration of the call (the RAII
`ScopedFloatFormatting` restores the ambient mode on exit, so the returned
ambient mode equals the incoming one), run the node loop, and flush the
deferred connections. -/
def generate (g : Graph) (ambient : FloatFormat) : GenResult × FloatFormat :=
  match genNodes g.nodes ([], []) with
  | none => (.crash, ambient)
  | some (lines, conns) => (.ok (lines ++ conns), ambient)

end Part001

/-! ## `createShader` (part_000 lines 141-176, identical in part_001 lines
84-119): the published graph interface.

`createVariables` is upstream code that does not touch the graph-level
interface blocks modelled here. -/

/-- The uniform and output variable blocks of the created stage, restricted
to the graph-interface sockets the two loops add. -/
structure ShaderInterface where
  uniforms : List Socket
  outputs : List Socket
deriving DecidableEq

/-- The two interface loops of `createShader`: a graph-level input socket
joins the uniform block only if it has internal connections and is editable;
every graph-level output socket joins the output block. -/
def createShader (g : Graph) : ShaderInterface :=
  ⟨g.inputSockets.filter (fun s => !s.connections.isEmpty && s.editable),
   g.outputSockets⟩

/-! ## Batch driver (`LibsToOso.cpp`, per-definition loop of `main`,
lines 225-318)

The loop walks the node definitions of the loaded library document.  The
codegen-and-compile body (steps 4-6: the upstream `OslShaderGenerator`, the
file write, and the external `oslc` invocation) is outside the component;
its outcome per definition is abstracted as a `BuildOutcome` supplied by a
function parameter. -/

namespace LibsToOso

/-- Outcome of generating and compiling one definition: clean success, an
`ExceptionRenderError` (message plus the external compiler's structured
error lines), or any other MaterialX exception. -/
inductive BuildOutcome where
  | success
  | renderError (what : String) (errorLog : List String)
  | mxException (what : String)
deriving DecidableEq

/-- One line-group written to the log file for a definition. -/
inductive LogEntry where
  | skipNotice (nodeName : String)
  | renderFailure (nodeName what : String) (errorLog : List String)
  | failure (nodeName what : String)
deriving DecidableEq

/-- The public name of a definition (lines 230-242): strip the "ND_"
convention marker, then prepend the optional user prefix with an
underscore. -/
def publicName (pfx : String) (defName : String) : String :=
  let n := Part001.stripND defName
  match pfx.data with
  | [] => n
  | _ => pfx ++ "_" ++ n

/-- `Document::addNodeInstance` (line 258): adds a child with the given
name; a name collision throws an uncaught exception (modelled as `none`)
that would escape the loop. -/
def addNodeInstance (children : List String) (nm : String) : Option (List String) :=
  if children.contains nm then none else some (children ++ [nm])

/-- `Document::removeChild` (line 303): remove the child with the given
name. -/
def removeChild (children : List String) (nm : String) : List String :=
  children.filter (fun c => c != nm)

/-- Driver state across iterations: the document's children, the log file's
contents, and the `hasFailed` flag. -/
structure BatchState where
  docChildren : List String
  log : List LogEntry
  hasFailed : Bool
deriving DecidableEq

/-- One iteration of the per-definition loop (lines 228-304): derive the
public name; if the definition has no implementation element for the active
target, log a skip notice and continue; otherwise add the temporary node
instance, run codegen and compilation, log any caught exception and set
`hasFailed`, and remove the temporary instance again.  `none` models the
uncaught name-collision exception escaping the loop. -/
def batchStep (target pfx : String) (build : NodeDef → BuildOutcome)
    (st : BatchState) (nd : NodeDef) : Option BatchState :=
  let nodeName := publicName pfx nd.name
  match nd.getImplementation target with
  | none => some { st with log := st.log ++ [LogEntry.skipNotice nodeName] }
  | some _ =>
    match addNodeInstance st.docChildren nodeName with
    | none => none
    | some children' =>
      let st' : BatchState :=
        match build nd with
        | .success => { st with docChildren := children' }
        | .renderError w errs =>
          { st with docChildren := children'
                    log := st.log ++ [LogEntry.renderFailure nodeName w errs]
                    hasFailed := true }
        | .mxException w =>
          { st with docChildren := children'
                    log := st.log ++ [LogEntry.failure nodeName w]
                    hasFailed := true }
      some { st' with docChildren := removeChild st'.docChildren nodeName }

/-- The whole per-definition loop. -/
def batchRun (target pfx : String) (build : NodeDef → BuildOutcome) :
    BatchState → List NodeDef → Option BatchState
  | st, [] => some st
  | st, nd :: rest =>
    match batchStep target pfx build st nd with
    | none => none
    | some st' => batchRun target pfx build st' rest

/-- The process exit code derived from the loop (lines 309-318): 1 if any
definition failed, 0 otherwise. -/
def exitCode (st : BatchState) : Nat :=
  if st.hasFailed then 1 else 0

/-- The log entries one definition contributes (specification function used
to characterize the loop). -/
def defTrace (target pfx : String) (build : NodeDef → BuildOutcome) (nd : NodeDef) :
    List LogEntry :=
  let nodeName := publicName pfx nd.name
  match nd.getImplementation target with
  | none => [LogEntry.skipNotice nodeName]
  | some _ =>
    match build nd with
    | .success => []
    | .renderError w errs => [LogEntry.renderFailure nodeName w errs]
    | .mxException w => [LogEntry.failure nodeName w]

/-- Whether one definition makes the run fail: it is eligible (has an
implementation element for the active target) and its build is not a clean
success. -/
def defFailed (target : String) (build : NodeDef → BuildOutcome) (nd : NodeDef) : Bool :=
  match nd.getImplementation target, build nd with
  | some _, .renderError _ _ => true
  | some _, .mxException _ => true
  | _, _ => false

end LibsToOso

/-! ## Specification functions

Total functions describing what a successful loop run produces, used to
state and prove the claims about the recursive loop functions above. -/

/-- The last element of a node list. -/
def lastNode : List Node → Option Node
  | [] => none
  | [n] => some n
  | _ :: n :: rest => lastNode (n :: rest)

namespace Part000

/-- The node-definition/implementation resolution chain of the node loop, as
a total lookup: null anywhere yields `none`. -/
def implOf (doc : Doc) (n : Node) : Option Implementation :=
  match getNodeDef doc n.nodeDefName with
  | none => none
  | some nd =>
    match nd.getImplementation "genoslnodes" with
    | none => none
    | some el => asImplementation el

/-- The `param` statements one node contributes to the stage. -/
def nodeParams (fmt : FloatFormat) (n : Node) : List Stmt :=
  n.inputs.flatMap (fun i => (emitInput fmt n.name i).1)

/-- The deferred `connect` statements one node contributes. -/
def nodeConns (fmt : FloatFormat) (n : Node) : List Stmt :=
  n.inputs.flatMap (fun i => (emitInput fmt n.name i).2)

/-- The stage lines one node contributes on a successful iteration: its
`param` statements followed by its `shader` declaration. -/
def nodeLines (doc : Doc) (fmt : FloatFormat) (n : Node) : List Stmt :=
  nodeParams fmt n ++
    (match implOf doc n with
     | some impl => [Stmt.shaderDecl impl.function n.name]
     | none => [])

/-- One `osoPaths` set update: insert the node's implementation source file
when the resolution chain succeeds. -/
def osoStep (doc : Doc) (s : List String) (n : Node) : List String :=
  match implOf doc n with
  | some impl => setInsert impl.file s
  | none => s

/-- The `osoPaths` set accumulated over a node list. -/
def osoPathsFold (doc : Doc) (s : List String) (nodes : List Node) : List String :=
  nodes.foldl (osoStep doc) s

end Part000

namespace Part001

/-- The stage lines one node contributes on a successful iteration of the
part_001 loop. -/
def nodeLines (n : Node) : List Stmt :=
  (match emitInputs n.name n.inputs with
   | some (ps, _) => ps
   | none => []) ++ [Stmt.shaderDecl (stripND n.nodeDefName) n.name]

/-- The deferred `connect` statements one node contributes in the part_001
loop. -/
def nodeConns (n : Node) : List Stmt :=
  match emitInputs n.name n.inputs with
  | some (_, cs) => cs
  | none => []

end Part001

/-! ## Concrete fixtures

Small concrete documents and graphs used to evaluate the generators at
specific inputs. -/

/-- A catalog with source implementations for two definitions. -/
def exDoc : Doc :=
  [⟨"defA", [("genoslnodes", .implementation "implA" "pathA")]⟩,
   ⟨"defB", [("genoslnodes", .implementation "implB" "pathB")]⟩]

/-- A source node with no inputs. -/
def exNodeA : Node := ⟨"A", [], ⟨"out", "color"⟩, "defA"⟩

/-- An input of node B connected to the internal node A. -/
def exInB : Input := ⟨"in", "color", false, none, some ⟨false, "A", "out"⟩⟩

/-- A node consuming A's output. -/
def exNodeB : Node := ⟨"B", [exInB], ⟨"out", "color"⟩, "defB"⟩

/-- The two-node graph A → B. -/
def exGraph : Graph := ⟨[exNodeA, exNodeB], [], []⟩

/-- The same graph with the node visit order permuted. -/
def exGraphPerm : Graph := ⟨[exNodeB, exNodeA], [], []⟩

/-- A context with the test-support sink wrapper enabled. -/
def exCtxWrap : Part000.GenContext := ⟨true, id, .Default⟩

/-- A context with the test-support sink wrapper disabled. -/
def exCtxPlain : Part000.GenContext := ⟨false, id, .Default⟩

/-- An unconnected literal input whose name is not a valid identifier and
whose fixed and default value renderings differ. -/
def exLitInput : Input :=
  ⟨"my-input", "float", false, some ⟨"0.500000", "0.5"⟩, some ⟨true, "", ""⟩⟩

/-- A single node carrying `exLitInput`. -/
def exLitNode : Node := ⟨"N", [exLitInput], ⟨"out", "float"⟩, "ND_foo"⟩

/-- A catalog entry for `exLitNode` under the part_000 target. -/
def exLitDoc : Doc := [⟨"ND_foo", [("genoslnodes", .implementation "foo" "pathF")]⟩]

/-- A catalog whose only definition has no implementation element at all for
the "genoslnodes" target. -/
def exDocNoImpl : Doc := [⟨"defA", []⟩]

/-- A catalog whose only definition maps the "genoslnodes" target to a
nodegraph element rather than a source implementation. -/
def exDocGraphImpl : Doc := [⟨"defA", [("genoslnodes", .nodeGraph)]⟩]

/-- The empty graph. -/
def exEmptyGraph : Graph := ⟨[], [], []⟩

/-- A definition with a source implementation for the standard OSL target. -/
def exDefOk : NodeDef := ⟨"ND_d1", [("genosl", .implementation "f" "p")]⟩

/-- A definition with no implementation element for any target. -/
def exDefNoOsl : NodeDef := ⟨"ND_d2", []⟩

/-- A build step that always succeeds. -/
def exBuildOk : NodeDef → LibsToOso.BuildOutcome := fun _ => .success

/-- A build step that always fails with a render exception carrying one
structured compiler error line. -/
def exBuildFail : NodeDef → LibsToOso.BuildOutcome :=
  fun _ => .renderError "boom" ["err1"]

/-- An internally connected, editable graph socket. -/
def exSocketUsed : Socket := ⟨"u1", ["N.in"], true⟩

/-- An internally connected but non-editable socket. -/
def exSocketLocked : Socket := ⟨"u2", ["N.in2"], false⟩

/-- An unconnected editable socket. -/
def exSocketUnused : Socket := ⟨"u3", [], true⟩

/-- An output socket. -/
def exSocketOut : Socket := ⟨"o1", [], false⟩

/-- A graph exercising all interface-socket cases. -/
def exSockGraph : Graph :=
  ⟨[], [exSocketUsed, exSocketLocked, exSocketUnused], [exSocketOut]⟩

end MtlxOslNodes

namespace MtlxOslNodes

/-! # Theorems

## Properties of the ordered string set -/

theorem ltChars_irrefl : ∀ as : List Char, ltChars as as = false := by
  intro as
  induction as with
  | nil => rfl
  | cons a as ih => simp [ltChars, lt_irrefl, ih]

theorem ltChars_asymm : ∀ as bs, ltChars as bs = true → ltChars bs as = false := by
  intro as
  induction as with
  | nil =>
    intro bs h
    cases bs with
    | nil => simp [ltChars] at h
    | cons b bs => rfl
  | cons a as ih =>
    intro bs h
    cases bs with
    | nil => simp [ltChars] at h
    | cons b bs =>
      simp only [ltChars] at h ⊢
      by_cases hab : a < b
      · have hba : ¬ b < a := asymm hab
        simp [hab, hba]
      · by_cases hba : b < a
        · simp [hab, hba] at h
        · simp only [hab, hba, if_false] at h ⊢
          exact ih bs h

theorem ltChars_trans : ∀ as bs cs, ltChars as bs = true → ltChars bs cs = true →
    ltChars as cs = true := by
  intro as
  induction as with
  | nil =>
    intro bs cs h1 h2
    cases bs with
    | nil => simp [ltChars] at h1
    | cons b bs =>
      cases cs with
      | nil => simp [ltChars] at h2
      | cons c cs => rfl
  | cons a as ih =>
    intro bs cs h1 h2
    cases bs with
    | nil => simp [ltChars] at h1
    | cons b bs =>
      cases cs with
      | nil => simp [ltChars] at h2
      | cons c cs =>
        simp only [ltChars] at h1 h2 ⊢
        by_cases hab : a < b
        · by_cases hbc : b < c
          · simp [lt_trans hab hbc]
          · by_cases hcb : c < b
            · simp [hbc, hcb] at h2
            · have hbc' : b = c := le_antisymm (not_lt.mp hcb) (not_lt.mp hbc)
              subst hbc'
              simp [hab]
        · by_cases hba : b < a
          · simp [hab, hba] at h1
          · have hab' : a = b := le_antisymm (not_lt.mp hba) (not_lt.mp hab)
            subst hab'
            simp only [lt_irrefl, if_false] at h1
            by_cases hac : a < c
            · simp [hac]
            · by_cases hca : c < a
              · simp [hac, hca] at h2
              · simp only [hac, hca, if_false] at h2 ⊢
                exact ih bs cs h1 h2

theorem ltChars_conn : ∀ as bs, ltChars as bs = false → ltChars bs as = false → as = bs := by
  intro as
  induction as with
  | nil =>
    intro bs h1 h2
    cases bs with
    | nil => rfl
    | cons b bs => simp [ltChars] at h1
  | cons a as ih =>
    intro bs h1 h2
    cases bs with
    | nil => simp [ltChars] at h2
    | cons b bs =>
      simp only [ltChars] at h1 h2
      by_cases hab : a < b
      · simp [hab] at h1
      · by_cases hba : b < a
        · simp [hab, hba] at h2
        · have hab' : a = b := le_antisymm (not_lt.mp hba) (not_lt.mp hab)
          subst hab'
          simp only [lt_irrefl, if_false] at h1 h2
          rw [ih bs h1 h2]

theorem strLt_irrefl (a : String) : strLt a a = false :=
  ltChars_irrefl a.data

theorem strLt_asymm (a b : String) (h : strLt a b = true) : strLt b a = false :=
  ltChars_asymm a.data b.data h

theorem strLt_trans (a b c : String) (h1 : strLt a b = true) (h2 : strLt b c = true) :
    strLt a c = true :=
  ltChars_trans a.data b.data c.data h1 h2

theorem strLt_conn (a b : String) (h1 : strLt a b = false) (h2 : strLt b a = false) : a = b :=
  String.ext (ltChars_conn a.data b.data h1 h2)

theorem mem_setInsert (x y : String) : ∀ s : List String,
    (y ∈ setInsert x s ↔ y = x ∨ y ∈ s) := by
  intro s
  induction s with
  | nil => simp [setInsert]
  | cons z zs ih =>
    simp only [setInsert]
    by_cases h1 : strLt x z = true
    · rw [if_pos h1]
      simp [List.mem_cons]
    · rw [if_neg h1]
      by_cases h2 : strLt z x = true
      · rw [if_pos h2]
        simp only [List.mem_cons, ih]
        tauto
      · rw [if_neg h2]
        have hzx : z = x :=
          strLt_conn z x (Bool.eq_false_iff.mpr h2) (Bool.eq_false_iff.mpr h1)
        subst hzx
        simp only [List.mem_cons]
        tauto

/-- The sortedness invariant of the modelled `std::set`. -/
theorem strSorted_setInsert (x : String) : ∀ s : List String,
    s.Pairwise (fun a b => strLt a b = true) →
    (setInsert x s).Pairwise (fun a b => strLt a b = true) := by
  intro s
  induction s with
  | nil =>
    intro _
    simp [setInsert]
  | cons z zs ih =>
    intro hs
    rw [List.pairwise_cons] at hs
    obtain ⟨hz, hzs⟩ := hs
    simp only [setInsert]
    by_cases h1 : strLt x z = true
    · rw [if_pos h1]
      rw [List.pairwise_cons]
      refine ⟨?_, List.pairwise_cons.mpr ⟨hz, hzs⟩⟩
      intro b hb
      rcases List.mem_cons.mp hb with rfl | hb
      · exact h1
      · exact strLt_trans x z b h1 (hz b hb)
    · rw [if_neg h1]
      by_cases h2 : strLt z x = true
      · rw [if_pos h2]
        rw [List.pairwise_cons]
        refine ⟨?_, ih hzs⟩
        intro b hb
        rcases (mem_setInsert x b zs).mp hb with rfl | hb
        · exact h2
        · exact hz b hb
      · rw [if_neg h2]
        exact List.pairwise_cons.mpr ⟨hz, hzs⟩

theorem strSorted_nodup : ∀ l : List String,
    l.Pairwise (fun a b => strLt a b = true) → l.Nodup := by
  intro l h
  refine h.imp ?_
  intro a b hab hEq
  subst hEq
  simp [strLt_irrefl] at hab

theorem strSorted_eq_of_mem_iff (l₁ l₂ : List String)
    (h₁ : l₁.Pairwise (fun a b => strLt a b = true))
    (h₂ : l₂.Pairwise (fun a b => strLt a b = true))
    (hm : ∀ a, a ∈ l₁ ↔ a ∈ l₂) : l₁ = l₂ := by
  haveI : IsAntisymm String (fun a b => strLt a b = true) := by
    constructor
    intro a b hab hba
    have := strLt_asymm a b hab
    rw [hba] at this
    exact absurd this (by simp)
  have hperm : l₁.Perm l₂ :=
    (List.perm_ext_iff_of_nodup (strSorted_nodup _ h₁) (strSorted_nodup _ h₂)).mpr hm
  exact List.eq_of_perm_of_sorted hperm h₁ h₂

end MtlxOslNodes

namespace MtlxOslNodes

/-! ## Structure of the part_000 node loop -/

theorem lastNode_cons (n : Node) (rest : List Node) :
    lastNode (n :: rest) =
      match lastNode rest with
      | none => some n
      | some m => some m := by
  cases rest with
  | nil => rfl
  | cons m ms =>
    have h : ∀ (l : List Node) (x : Node), ∃ y, lastNode (x :: l) = some y := by
      intro l
      induction l with
      | nil => intro x; exact ⟨x, rfl⟩
      | cons a l ih =>
        intro x
        obtain ⟨y, hy⟩ := ih a
        exact ⟨y, by simpa [lastNode] using hy⟩
    obtain ⟨y, hy⟩ := h ms m
    simp only [lastNode] at hy ⊢
    rw [hy]

namespace Part000

theorem emitInput_shape (fmt : FloatFormat) (nm : String) (i : Input) :
    emitInput fmt nm i = ([], []) ∨
    emitInput fmt nm i = ([Stmt.param i.ty (makeValidName i.name) (syntaxValue fmt i)], []) ∨
    (∃ c, i.connection = some c ∧ c.fromGraph = false ∧
      emitInput fmt nm i =
        ([], [Stmt.connect c.nodeName (makeValidName c.outputName) nm (makeValidName i.name)])) := by
  unfold emitInput
  by_cases hd : i.isDefault = true
  · exact Or.inl (by simp [hd])
  · cases hc : i.connection with
    | none =>
      by_cases hn : (i.name == "backsurfaceshader" || i.name == "displacementshader") = true
      · exact Or.inl (by simp [hd, hc, hn])
      · by_cases hv : (syntaxValue fmt i == "null_closure()") = true
        · exact Or.inl (by simp [hd, hc, hn, hv])
        · exact Or.inr (Or.inl (by simp [hd, hc, hn, hv]))
    | some c =>
      by_cases hg : c.fromGraph = true
      · by_cases hn : (i.name == "backsurfaceshader" || i.name == "displacementshader") = true
        · exact Or.inl (by simp [hd, hc, hn, hg])
        · by_cases hv : (syntaxValue fmt i == "null_closure()") = true
          · exact Or.inl (by simp [hd, hc, hn, hv, hg])
          · exact Or.inr (Or.inl (by simp [hd, hc, hn, hv, hg]))
      · refine Or.inr (Or.inr ⟨c, rfl, by simpa using hg, ?_⟩)
        simp [hd, hg]

theorem emitInput_fst_not_connect (fmt : FloatFormat) (nm : String) (i : Input) :
    ∀ s ∈ (emitInput fmt nm i).1, isConnectStmt s = false := by
  intro s hs
  rcases emitInput_shape fmt nm i with h | h | ⟨c, _, _, h⟩
  · rw [h] at hs; simp at hs
  · rw [h] at hs
    simp only [List.mem_singleton] at hs
    subst hs; rfl
  · rw [h] at hs; simp at hs

theorem emitInput_snd_connect (fmt : FloatFormat) (nm : String) (i : Input) :
    ∀ s ∈ (emitInput fmt nm i).2, isConnectStmt s = true := by
  intro s hs
  rcases emitInput_shape fmt nm i with h | h | ⟨c, _, _, h⟩
  · rw [h] at hs; simp at hs
  · rw [h] at hs; simp at hs
  · rw [h] at hs
    simp only [List.mem_singleton] at hs
    subst hs; rfl

theorem nodeLines_not_connect (doc : Doc) (fmt : FloatFormat) (n : Node) :
    ∀ s ∈ nodeLines doc fmt n, isConnectStmt s = false := by
  intro s hs
  unfold nodeLines at hs
  rcases List.mem_append.mp hs with hs | hs
  · unfold nodeParams at hs
    obtain ⟨i, _, hsi⟩ := List.mem_flatMap.mp hs
    exact emitInput_fst_not_connect fmt n.name i s hsi
  · cases h : implOf doc n with
    | none => rw [h] at hs; simp at hs
    | some impl =>
      rw [h] at hs
      simp only [List.mem_singleton] at hs
      subst hs; rfl

theorem nodeConns_connect (fmt : FloatFormat) (n : Node) :
    ∀ s ∈ nodeConns fmt n, isConnectStmt s = true := by
  intro s hs
  unfold nodeConns at hs
  obtain ⟨i, _, hsi⟩ := List.mem_flatMap.mp hs
  exact emitInput_snd_connect fmt n.name i s hsi

theorem implOf_eq (doc : Doc) (n : Node) (nd : NodeDef) (el : ImplElement)
    (impl : Implementation)
    (hnd : getNodeDef doc n.nodeDefName = some nd)
    (hel : nd.getImplementation "genoslnodes" = some el)
    (him : asImplementation el = some impl) :
    implOf doc n = some impl := by
  simp [implOf, hnd, hel, him]

theorem genNodes_ok_spec (doc : Doc) (fmt : FloatFormat) :
    ∀ (nodes : List Node) (st st' : LoopState),
      genNodes doc fmt nodes st = .ok st' →
      st'.lines = st.lines ++ nodes.flatMap (nodeLines doc fmt) ∧
      st'.connections = st.connections ++ nodes.flatMap (nodeConns fmt) ∧
      st'.osoPaths = osoPathsFold doc st.osoPaths nodes ∧
      st'.lastNodeName = (match lastNode nodes with
                          | some n => n.name
                          | none => st.lastNodeName) ∧
      st'.lastOutput = (match lastNode nodes with
                        | some n => some n.output0
                        | none => st.lastOutput) := by
  intro nodes
  induction nodes with
  | nil =>
    intro st st' h
    simp only [genNodes] at h
    injection h with h
    subst h
    simp [osoPathsFold, lastNode]
  | cons n rest ih =>
    intro st st' h
    simp only [genNodes] at h
    cases hnd : getNodeDef doc n.nodeDefName with
    | none => simp [hnd] at h
    | some nd =>
      simp only [hnd] at h
      cases hel : nd.getImplementation "genoslnodes" with
      | none => simp [hel] at h
      | some el =>
        simp only [hel] at h
        cases him : asImplementation el with
        | none => simp [him] at h
        | some impl =>
          simp only [him] at h
          obtain ⟨hl, hc, ho, hn2, hlo⟩ := ih _ _ h
          have himpl : implOf doc n = some impl := implOf_eq doc n nd el impl hnd hel him
          refine ⟨?_, ?_, ?_, ?_, ?_⟩
          · rw [hl]
            simp [nodeLines, nodeParams, himpl, List.append_assoc]
          · rw [hc]
            simp [nodeConns, List.append_assoc]
          · rw [ho]
            simp [osoPathsFold, osoStep, himpl]
          · rw [hn2, lastNode_cons]
            cases lastNode rest <;> rfl
          · rw [hlo, lastNode_cons]
            cases lastNode rest <;> rfl

end Part000

end MtlxOslNodes

namespace MtlxOslNodes

/-! ## Structure of the part_001 node loop -/

namespace Part001

theorem emitInput_shape001 (nm : String) (i : Input) :
    emitInput nm i = none ∨
    emitInput nm i = some ([], []) ∨
    emitInput nm i = some ([Stmt.param i.ty i.name (Part000.syntaxValue .Fixed i)], []) ∨
    (∃ c, i.connection = some c ∧ c.fromGraph = false ∧
      emitInput nm i = some ([], [Stmt.connect c.nodeName c.outputName nm i.name])) := by
  unfold emitInput
  by_cases hv : i.value.isNone = true
  · exact Or.inr (Or.inl (by simp [hv]))
  · by_cases hd : i.isDefault = true
    · exact Or.inr (Or.inl (by simp [hv, hd]))
    · cases hc : i.connection with
      | none => exact Or.inl (by simp [hv, hd])
      | some c =>
        by_cases hg : c.fromGraph = true
        · by_cases hn : (i.name == "backsurfaceshader" || i.name == "displacementshader") = true
          · exact Or.inr (Or.inl (by simp [hv, hd, hn, hg]))
          · exact Or.inr (Or.inr (Or.inl (by simp [hv, hd, hn, hg])))
        · refine Or.inr (Or.inr (Or.inr ⟨c, rfl, by simpa using hg, ?_⟩))
          simp [hv, hd, hg]

theorem emitInput_classify (nm : String) (i : Input) (ps cs : List Stmt)
    (h : emitInput nm i = some (ps, cs)) :
    (∀ s ∈ ps, isConnectStmt s = false) ∧ (∀ s ∈ cs, isConnectStmt s = true) := by
  rcases emitInput_shape001 nm i with hx | hx | hx | ⟨c, _, _, hx⟩ <;> rw [hx] at h
  · exact absurd h (by simp)
  · simp only [Option.some.injEq, Prod.mk.injEq] at h
    obtain ⟨rfl, rfl⟩ := h
    exact ⟨by simp, by simp⟩
  · simp only [Option.some.injEq, Prod.mk.injEq] at h
    obtain ⟨rfl, rfl⟩ := h
    refine ⟨?_, by simp⟩
    intro s hs
    simp only [List.mem_singleton] at hs
    subst hs; rfl
  · simp only [Option.some.injEq, Prod.mk.injEq] at h
    obtain ⟨rfl, rfl⟩ := h
    refine ⟨by simp, ?_⟩
    intro s hs
    simp only [List.mem_singleton] at hs
    subst hs; rfl

theorem emitInputs_classify (nm : String) : ∀ (inputs : List Input) (ps cs : List Stmt),
    emitInputs nm inputs = some (ps, cs) →
    (∀ s ∈ ps, isConnectStmt s = false) ∧ (∀ s ∈ cs, isConnectStmt s = true) := by
  intro inputs
  induction inputs with
  | nil =>
    intro ps cs h
    simp only [emitInputs, Option.some.injEq, Prod.mk.injEq] at h
    obtain ⟨rfl, rfl⟩ := h
    exact ⟨by simp, by simp⟩
  | cons i rest ih =>
    intro ps cs h
    simp only [emitInputs] at h
    cases hi : emitInput nm i with
    | none => simp [hi] at h
    | some pc =>
      obtain ⟨p1, c1⟩ := pc
      simp only [hi] at h
      cases hr : emitInputs nm rest with
      | none => simp [hr] at h
      | some pc2 =>
        obtain ⟨p2, c2⟩ := pc2
        simp only [hr, Option.some.injEq, Prod.mk.injEq] at h
        obtain ⟨rfl, rfl⟩ := h
        obtain ⟨ih1, ih2⟩ := ih p2 c2 hr
        obtain ⟨hi1, hi2⟩ := emitInput_classify nm i p1 c1 hi
        constructor
        · intro s hs
          rcases List.mem_append.mp hs with hs | hs
          · exact hi1 s hs
          · exact ih1 s hs
        · intro s hs
          rcases List.mem_append.mp hs with hs | hs
          · exact hi2 s hs
          · exact ih2 s hs

theorem nodeLines_not_connect001 (n : Node) :
    ∀ s ∈ nodeLines n, isConnectStmt s = false := by
  intro s hs
  unfold nodeLines at hs
  rcases List.mem_append.mp hs with hs | hs
  · cases hi : emitInputs n.name n.inputs with
    | none => simp only [hi] at hs; simp at hs
    | some pc =>
      obtain ⟨ps, cs⟩ := pc
      simp only [hi] at hs
      exact (emitInputs_classify n.name n.inputs ps cs hi).1 s hs
  · simp only [List.mem_singleton] at hs
    subst hs; rfl

theorem nodeConns_connect001 (n : Node) :
    ∀ s ∈ nodeConns n, isConnectStmt s = true := by
  intro s hs
  unfold nodeConns at hs
  cases hi : emitInputs n.name n.inputs with
  | none => simp only [hi] at hs; simp at hs
  | some pc =>
    obtain ⟨ps, cs⟩ := pc
    simp only [hi] at hs
    exact (emitInputs_classify n.name n.inputs ps cs hi).2 s hs

theorem genNodes_ok_spec001 : ∀ (nodes : List Node) (lines conns lines' conns' : List Stmt),
    genNodes nodes (lines, conns) = some (lines', conns') →
    lines' = lines ++ nodes.flatMap nodeLines ∧
    conns' = conns ++ nodes.flatMap nodeConns := by
  intro nodes
  induction nodes with
  | nil =>
    intro lines conns lines' conns' h
    simp only [genNodes, Option.some.injEq, Prod.mk.injEq] at h
    obtain ⟨rfl, rfl⟩ := h
    simp
  | cons n rest ih =>
    intro lines conns lines' conns' h
    simp only [genNodes] at h
    cases hi : emitInputs n.name n.inputs with
    | none => simp [hi] at h
    | some pc =>
      obtain ⟨ps, cs⟩ := pc
      simp only [hi] at h
      obtain ⟨h1, h2⟩ := ih _ _ _ _ h
      constructor
      · rw [h1]
        simp [nodeLines, hi, List.append_assoc]
      · rw [h2]
        simp [nodeConns, hi, List.append_assoc]

end Part001

/-! ## The part_000 `generate` wrapper -/

namespace Part000

theorem generate_ok_spec (doc : Doc) (g : Graph) (ctx : GenContext) (sh : Shader)
    (h : generate doc g ctx = .ok sh) :
    ∃ st, genNodes doc ctx.floatFormat g.nodes initState = .ok st ∧
      sh.osoPathAttr = joinPaths (st.osoPaths.map ctx.resolveSourceFile) ∧
      ((ctx.oslNodesConnectCiWrapper = false ∧ sh.lines = st.lines ++ st.connections) ∨
       (ctx.oslNodesConnectCiWrapper = true ∧ ∃ out, st.lastOutput = some out ∧
         sh.lines = st.lines ++ st.connections ++
           [Stmt.shaderDecl "setCi" "root",
            Stmt.connect st.lastNodeName out.name "root" (out.tyName ++ "_input")])) := by
  unfold generate at h
  cases hg : genNodes doc ctx.floatFormat g.nodes initState with
  | noShader => simp [hg] at h
  | crash => simp [hg] at h
  | ok st =>
    simp only [hg] at h
    by_cases hw : ctx.oslNodesConnectCiWrapper = true
    · rw [if_pos hw] at h
      cases ho : st.lastOutput with
      | none => simp [ho] at h
      | some out =>
        simp only [ho] at h
        injection h with h
        subst h
        exact ⟨st, rfl, rfl, Or.inr ⟨hw, out, ho, by simp⟩⟩
    · rw [if_neg hw] at h
      injection h with h
      subst h
      exact ⟨st, rfl, rfl, Or.inl ⟨by simpa using hw, rfl⟩⟩

end Part000

/-! ## The `osoPaths` set across the node loop -/

theorem osoPathsFold_sorted (doc : Doc) : ∀ (nodes : List Node) (s : List String),
    s.Pairwise (fun a b => strLt a b = true) →
    (Part000.osoPathsFold doc s nodes).Pairwise (fun a b => strLt a b = true) := by
  intro nodes
  induction nodes with
  | nil => intro s hs; exact hs
  | cons n rest ih =>
    intro s hs
    simp only [Part000.osoPathsFold, List.foldl_cons]
    apply ih
    unfold Part000.osoStep
    cases Part000.implOf doc n with
    | none => exact hs
    | some impl => exact strSorted_setInsert impl.file s hs

theorem mem_osoPathsFold (doc : Doc) : ∀ (nodes : List Node) (s : List String) (y : String),
    (y ∈ Part000.osoPathsFold doc s nodes ↔
      y ∈ s ∨ ∃ n ∈ nodes, ∃ impl, Part000.implOf doc n = some impl ∧ impl.file = y) := by
  intro nodes
  induction nodes with
  | nil => intro s y; simp [Part000.osoPathsFold]
  | cons n rest ih =>
    intro s y
    simp only [Part000.osoPathsFold, List.foldl_cons]
    rw [show List.foldl (Part000.osoStep doc) (Part000.osoStep doc s n) rest =
          Part000.osoPathsFold doc (Part000.osoStep doc s n) rest from rfl]
    rw [ih]
    unfold Part000.osoStep
    cases h : Part000.implOf doc n with
    | none =>
      constructor
      · rintro (hy | ⟨m, hm, hP⟩)
        · exact Or.inl hy
        · exact Or.inr ⟨m, List.mem_cons_of_mem n hm, hP⟩
      · rintro (hy | ⟨m, hm, hP⟩)
        · exact Or.inl hy
        · rcases List.mem_cons.mp hm with rfl | hm
          · obtain ⟨impl, himpl, _⟩ := hP
            rw [h] at himpl
            exact absurd himpl (by simp)
          · exact Or.inr ⟨m, hm, hP⟩
    | some impl =>
      rw [mem_setInsert]
      constructor
      · rintro ((rfl | hy) | ⟨m, hm, hP⟩)
        · exact Or.inr ⟨n, List.mem_cons_self n rest, impl, h, rfl⟩
        · exact Or.inl hy
        · exact Or.inr ⟨m, List.mem_cons_of_mem n hm, hP⟩
      · rintro (hy | ⟨m, hm, hP⟩)
        · exact Or.inl (Or.inr hy)
        · rcases List.mem_cons.mp hm with rfl | hm
          · obtain ⟨impl2, himpl2, hfile⟩ := hP
            rw [h] at himpl2
            injection himpl2 with he
            subst he
            exact Or.inl (Or.inl hfile.symm)
          · exact Or.inr ⟨m, hm, hP⟩

/-- Permutation invariance of the `osoPaths` set: the sorted deduplicated
path list is determined by the node multiset alone. -/
theorem osoPathsFold_perm (doc : Doc) (nodes nodes' : List Node)
    (hp : nodes.Perm nodes') :
    Part000.osoPathsFold doc [] nodes = Part000.osoPathsFold doc [] nodes' := by
  apply strSorted_eq_of_mem_iff
  · exact osoPathsFold_sorted doc nodes [] (by simp)
  · exact osoPathsFold_sorted doc nodes' [] (by simp)
  · intro a
    rw [mem_osoPathsFold, mem_osoPathsFold]
    constructor
    · rintro (ha | ⟨m, hm, hP⟩)
      · simp at ha
      · exact Or.inr ⟨m, hp.mem_iff.mp hm, hP⟩
    · rintro (ha | ⟨m, hm, hP⟩)
      · simp at ha
      · exact Or.inr ⟨m, hp.mem_iff.mpr hm, hP⟩

end MtlxOslNodes

namespace MtlxOslNodes

/-! ## The batch-driver loop -/

namespace LibsToOso

theorem addNodeInstance_some (children : List String) (nm : String)
    (children' : List String)
    (h : addNodeInstance children nm = some children') :
    children.contains nm = false ∧ children' = children ++ [nm] := by
  unfold addNodeInstance at h
  by_cases hc : children.contains nm = true
  · rw [if_pos hc] at h
    exact absurd h (by simp)
  · rw [if_neg hc] at h
    injection h with h
    exact ⟨Bool.eq_false_iff.mpr hc, h.symm⟩

theorem removeChild_append (children : List String) (nm : String)
    (h : children.contains nm = false) :
    removeChild (children ++ [nm]) nm = children := by
  unfold removeChild
  rw [List.filter_append]
  have h1 : children.filter (fun c => c != nm) = children := by
    apply List.filter_eq_self.mpr
    intro c hc
    have hne : ¬ c = nm := by
      intro hEq
      subst hEq
      have hmem : List.elem c children = true := List.elem_iff.mpr hc
      rw [List.contains, hmem] at h
      exact Bool.noConfusion h
    simpa using hne
  have h2 : [nm].filter (fun c => c != nm) = [] := by simp
  rw [h1, h2, List.append_nil]

theorem batchStep_spec (target pfx : String) (build : NodeDef → BuildOutcome)
    (st : BatchState) (nd : NodeDef) (st' : BatchState)
    (h : batchStep target pfx build st nd = some st') :
    st'.docChildren = st.docChildren ∧
    st'.log = st.log ++ defTrace target pfx build nd ∧
    st'.hasFailed = (st.hasFailed || defFailed target build nd) := by
  simp only [batchStep] at h
  cases hI : nd.getImplementation target with
  | none =>
    simp only [hI] at h
    injection h with h
    subst h
    simp [defTrace, defFailed, hI]
  | some el =>
    simp only [hI] at h
    cases hA : addNodeInstance st.docChildren (publicName pfx nd.name) with
    | none => simp [hA] at h
    | some children' =>
      obtain ⟨hcont, rfl⟩ := addNodeInstance_some _ _ _ hA
      simp only [hA] at h
      cases hb : build nd with
      | success =>
        simp only [hb] at h
        injection h with h
        subst h
        exact ⟨removeChild_append _ _ hcont, by simp [defTrace, hI, hb],
          by simp [defFailed, hI, hb]⟩
      | renderError w errs =>
        simp only [hb] at h
        injection h with h
        subst h
        exact ⟨removeChild_append _ _ hcont, by simp [defTrace, hI, hb],
          by simp [defFailed, hI, hb]⟩
      | mxException w =>
        simp only [hb] at h
        injection h with h
        subst h
        exact ⟨removeChild_append _ _ hcont, by simp [defTrace, hI, hb],
          by simp [defFailed, hI, hb]⟩

theorem batchRun_spec (target pfx : String) (build : NodeDef → BuildOutcome) :
    ∀ (defs : List NodeDef) (st st' : BatchState),
      batchRun target pfx build st defs = some st' →
      st'.docChildren = st.docChildren ∧
      st'.log = st.log ++ defs.flatMap (defTrace target pfx build) ∧
      st'.hasFailed = (st.hasFailed || defs.any (defFailed target build)) := by
  intro defs
  induction defs with
  | nil =>
    intro st st' h
    simp only [batchRun] at h
    injection h with h
    subst h
    simp
  | cons nd rest ih =>
    intro st st' h
    simp only [batchRun] at h
    cases hs : batchStep target pfx build st nd with
    | none => simp [hs] at h
    | some st1 =>
      simp only [hs] at h
      obtain ⟨h1, h2, h3⟩ := ih st1 st' h
      obtain ⟨g1, g2, g3⟩ := batchStep_spec target pfx build st nd st1 hs
      refine ⟨by rw [h1, g1], ?_, ?_⟩
      · rw [h2, g2]
        simp [List.append_assoc]
      · rw [h3, g3]
        simp [Bool.or_assoc]

theorem defFailed_false_iff (target : String) (build : NodeDef → BuildOutcome)
    (nd : NodeDef) :
    defFailed target build nd = false ↔
      ((nd.getImplementation target).isSome = true → build nd = .success) := by
  unfold defFailed
  cases hI : nd.getImplementation target with
  | none => simp
  | some el =>
    cases hb : build nd with
    | success => simp
    | renderError w errs => simp
    | mxException w => simp

end LibsToOso

end MtlxOslNodes

namespace MtlxOslNodes

/-! ## Claim theorems -/

/-- C1 counterexample: on the two-node graph A → B with the
`oslNodesConnectCiWrapper` option enabled, part_000's `generate` emits the
deferred connection `connect A.out B.in ;` at line index 2 and only then the
synthetic sink declaration `shader setCi root ;` at line index 3, so a
connection statement appears strictly before a declaration statement,
refuting the claim as stated. -/
theorem C1_counterexample :
    Part000.generate exDoc exGraph exCtxWrap =
      .ok ⟨[Stmt.shaderDecl "implA" "A", Stmt.shaderDecl "implB" "B",
            Stmt.connect "A" "out" "B" "in",
            Stmt.shaderDecl "setCi" "root",
            Stmt.connect "B" "out" "root" "color_input"],
           "pathA,pathB"⟩ ∧
    ([Stmt.shaderDecl "implA" "A", Stmt.shaderDecl "implB" "B",
      Stmt.connect "A" "out" "B" "in",
      Stmt.shaderDecl "setCi" "root",
      Stmt.connect "B" "out" "root" "color_input"])[2]? =
        some (Stmt.connect "A" "out" "B" "in") ∧
    ([Stmt.shaderDecl "implA" "A", Stmt.shaderDecl "implB" "B",
      Stmt.connect "A" "out" "B" "in",
      Stmt.shaderDecl "setCi" "root",
      Stmt.connect "B" "out" "root" "color_input"])[3]? =
        some (Stmt.shaderDecl "setCi" "root") ∧
    isConnectStmt (Stmt.connect "A" "out" "B" "in") = true ∧
    isConnectStmt (Stmt.shaderDecl "setCi" "root") = false :=
  ⟨by decide, by decide, by decide, rfl, rfl⟩

/-- C1 (amended): in both generator variants every deferred connection
statement appears after every per-node `param`/`shader` declaration
statement (node declarations in graph order, connections in discovery
order); with the sink wrapper disabled this means all connections follow all
declarations, while with it enabled the synthetic sink declaration and its
connection are additionally appended after the deferred connections. -/
theorem C1_declarations_before_connections :
    (∀ (doc : Doc) (g : Graph) (ctx : Part000.GenContext) (sh : Part000.Shader),
      Part000.generate doc g ctx = .ok sh →
      ∃ decls conns sink,
        sh.lines = decls ++ conns ++ sink ∧
        (∀ s ∈ decls, isConnectStmt s = false) ∧
        (∀ s ∈ conns, isConnectStmt s = true) ∧
        (ctx.oslNodesConnectCiWrapper = false → sink = []) ∧
        (ctx.oslNodesConnectCiWrapper = true →
          ∃ c, sink = [Stmt.shaderDecl "setCi" "root", c] ∧ isConnectStmt c = true)) ∧
    (∀ (g : Graph) (fmt fmt' : FloatFormat) (lines : List Stmt),
      Part001.generate g fmt = (.ok lines, fmt') →
      ∃ decls conns, lines = decls ++ conns ∧
        (∀ s ∈ decls, isConnectStmt s = false) ∧
        (∀ s ∈ conns, isConnectStmt s = true)) := by
  constructor
  · intro doc g ctx sh h
    obtain ⟨st, hg, _, hcase⟩ := Part000.generate_ok_spec doc g ctx sh h
    obtain ⟨hl, hc, _, _, _⟩ := Part000.genNodes_ok_spec doc ctx.floatFormat g.nodes _ _ hg
    have hdecls : ∀ s ∈ st.lines, isConnectStmt s = false := by
      rw [hl]
      intro s hs
      simp only [Part000.initState, List.nil_append] at hs
      obtain ⟨n, _, hn⟩ := List.mem_flatMap.mp hs
      exact Part000.nodeLines_not_connect doc ctx.floatFormat n s hn
    have hconns : ∀ s ∈ st.connections, isConnectStmt s = true := by
      rw [hc]
      intro s hs
      simp only [Part000.initState, List.nil_append] at hs
      obtain ⟨n, _, hn⟩ := List.mem_flatMap.mp hs
      exact Part000.nodeConns_connect ctx.floatFormat n s hn
    rcases hcase with ⟨hw, hlines⟩ | ⟨hw, out, _, hlines⟩
    · exact ⟨st.lines, st.connections, [], by simpa using hlines, hdecls, hconns,
        fun _ => rfl, fun hw2 => by rw [hw] at hw2; exact absurd hw2 (by simp)⟩
    · refine ⟨st.lines, st.connections,
        [Stmt.shaderDecl "setCi" "root",
         Stmt.connect st.lastNodeName out.name "root" (out.tyName ++ "_input")],
        hlines, hdecls, hconns,
        fun hw2 => by rw [hw] at hw2; exact absurd hw2 (by simp),
        fun _ => ⟨_, rfl, rfl⟩⟩
  · intro g fmt fmt' lines h
    unfold Part001.generate at h
    cases hg : Part001.genNodes g.nodes ([], []) with
    | none => simp [hg] at h
    | some pc =>
      obtain ⟨l, c⟩ := pc
      simp only [hg, Prod.mk.injEq] at h
      obtain ⟨h1, _⟩ := h
      injection h1 with h1
      subst h1
      obtain ⟨hl, hc⟩ := Part001.genNodes_ok_spec001 g.nodes [] [] l c hg
      simp only [List.nil_append] at hl hc
      subst hl
      subst hc
      refine ⟨_, _, rfl, ?_, ?_⟩
      · intro s hs
        obtain ⟨n, _, hn⟩ := List.mem_flatMap.mp hs
        exact Part001.nodeLines_not_connect001 n s hn
      · intro s hs
        obtain ⟨n, _, hn⟩ := List.mem_flatMap.mp hs
        exact Part001.nodeConns_connect001 n s hn

/-- C1 witness: the amended ordering theorem applied to the concrete
two-node graph with the wrapper disabled. -/
theorem C1_declarations_before_connections_witness :
    ∃ decls conns sink,
      (Part000.Shader.mk
        [Stmt.shaderDecl "implA" "A", Stmt.shaderDecl "implB" "B",
         Stmt.connect "A" "out" "B" "in"] "pathA,pathB").lines =
        decls ++ conns ++ sink ∧
      (∀ s ∈ decls, isConnectStmt s = false) ∧
      (∀ s ∈ conns, isConnectStmt s = true) ∧
      (exCtxPlain.oslNodesConnectCiWrapper = false → sink = []) ∧
      (exCtxPlain.oslNodesConnectCiWrapper = true →
        ∃ c, sink = [Stmt.shaderDecl "setCi" "root", c] ∧ isConnectStmt c = true) :=
  C1_declarations_before_connections.1 exDoc exGraph exCtxPlain
    ⟨[Stmt.shaderDecl "implA" "A", Stmt.shaderDecl "implB" "B",
      Stmt.connect "A" "out" "B" "in"], "pathA,pathB"⟩ (by decide)

/-- C2 counterexample: for the unconnected literal input `my-input`, the
part_001 variant emits a `param` statement whose name is the raw string
`my-input`, which is not a valid target identifier (no sanitization), while
the part_000 variant under the ambient default formatting emits the value's
default rendering `0.5`, which differs from its fixed-notation rendering
`0.500000` — so neither variant satisfies "sanitized name and
fixed-notation value" as claimed. -/
theorem C2_counterexample :
    Part001.generate ⟨[exLitNode], [], []⟩ .Default =
      (.ok [Stmt.param "float" "my-input" "0.500000", Stmt.shaderDecl "foo" "N"],
       .Default) ∧
    isValidIdentifier "my-input" = false ∧
    makeValidName "my-input" = "my_input" ∧
    Part000.emitInput .Default "N" exLitInput =
      ([Stmt.param "float" "my_input" "0.5"], []) ∧
    renderValue .Fixed ⟨"0.500000", "0.5"⟩ = "0.500000" ∧
    ("0.5" : String) ≠ "0.500000" :=
  ⟨by decide, by decide, by decide, by decide, rfl, by decide⟩

/-- C2 (amended): for a non-default input with no internal-node connection
whose name is outside the fixed exclusion set and whose value does not
render to the no-op sentinel, part_000 emits exactly one `param` statement
with the sanitized input name and the value rendered under the ambient
float formatting, while part_001 (which requires the boundary connection to
be present and a stored value) emits exactly one `param` statement with the
raw input name and the fixed-notation value. -/
theorem C2_literal_param_statement :
    (∀ (fmt : FloatFormat) (nm : String) (i : Input),
      i.isDefault = false →
      (i.connection = none ∨ ∃ c, i.connection = some c ∧ c.fromGraph = true) →
      i.name ≠ "backsurfaceshader" → i.name ≠ "displacementshader" →
      Part000.syntaxValue fmt i ≠ "null_closure()" →
      Part000.emitInput fmt nm i =
        ([Stmt.param i.ty (makeValidName i.name) (Part000.syntaxValue fmt i)], [])) ∧
    (∀ (nm : String) (i : Input) (v : LitValue) (c : Connection),
      i.value = some v → i.isDefault = false →
      i.connection = some c → c.fromGraph = true →
      i.name ≠ "backsurfaceshader" → i.name ≠ "displacementshader" →
      Part001.emitInput nm i =
        some ([Stmt.param i.ty i.name (renderValue .Fixed v)], [])) := by
  constructor
  · intro fmt nm i hd hc hn1 hn2 hv
    rcases hc with hc | ⟨c, hc, hg⟩
    · simp [Part000.emitInput, hd, hc, hn1, hn2, hv]
    · simp [Part000.emitInput, hd, hc, hg, hn1, hn2, hv]
  · intro nm i v c hval hd hc hg hn1 hn2
    simp [Part001.emitInput, hval, hd, hc, hg, hn1, hn2, Part000.syntaxValue]

/-- C2 witness: both halves of the amended parameter-emission theorem
evaluated on the concrete literal input. -/
theorem C2_literal_param_statement_witness :
    Part000.emitInput .Default "N" exLitInput =
      ([Stmt.param "float" "my_input" "0.5"], []) ∧
    Part001.emitInput "N" exLitInput =
      some ([Stmt.param "float" "my-input" "0.500000"], []) := by
  constructor
  · have h := C2_literal_param_statement.1 .Default "N" exLitInput (by decide)
      (Or.inr ⟨⟨true, "", ""⟩, by decide, rfl⟩) (by decide) (by decide) (by decide)
    rw [h]
    decide
  · have h := C2_literal_param_statement.2 "N" exLitInput ⟨"0.500000", "0.5"⟩
      ⟨true, "", ""⟩ (by decide) (by decide) (by decide) rfl (by decide) (by decide)
    rw [h]
    decide

end MtlxOslNodes

namespace MtlxOslNodes

/-- C3: evaluating part_000's `generate` on a one-node graph whose node
definition has no implementation element at all for the "genoslnodes"
target: `getImplementation` returns null and the code immediately calls
`->asA<Implementation>()` through it (modelled `crash`), so generation does
not reach the clean `return nullptr` guard; the guard is reached (clean
`noShader`) only when an implementation element exists for the target but
is not a source-code `Implementation`. -/
theorem C3_missing_impl_dereference :
    Part000.generate exDocNoImpl ⟨[exNodeA], [], []⟩ exCtxPlain =
      Part000.GenResult.crash ∧
    Part000.generate exDocGraphImpl ⟨[exNodeA], [], []⟩ exCtxPlain =
      Part000.GenResult.noShader :=
  ⟨by decide, by decide⟩

/-- C4: starting from an empty log and a clear failure flag, the batch loop
exits with code 0 iff every definition having an implementation element for
the active target built cleanly, and every caught generation/compilation
failure is recorded in the log with its diagnostic detail (exception message
and, for render errors, the external compiler's structured error lines);
the loop reaching its end (`some st'`) processes every definition. -/
theorem C4_exit_and_failure_logging :
    ∀ (target pfx : String) (build : NodeDef → LibsToOso.BuildOutcome)
      (defs : List NodeDef) (children : List String) (st' : LibsToOso.BatchState),
      LibsToOso.batchRun target pfx build ⟨children, [], false⟩ defs = some st' →
      (LibsToOso.exitCode st' = 0 ↔
        ∀ nd ∈ defs, (nd.getImplementation target).isSome = true →
          build nd = .success) ∧
      (∀ nd ∈ defs, ∀ el, nd.getImplementation target = some el →
        ∀ w errs, build nd = .renderError w errs →
          LibsToOso.LogEntry.renderFailure (LibsToOso.publicName pfx nd.name) w errs
            ∈ st'.log) ∧
      (∀ nd ∈ defs, ∀ el, nd.getImplementation target = some el →
        ∀ w, build nd = .mxException w →
          LibsToOso.LogEntry.failure (LibsToOso.publicName pfx nd.name) w ∈ st'.log) := by
  intro target pfx build defs children st' h
  obtain ⟨_, hlog, hfail⟩ := LibsToOso.batchRun_spec target pfx build defs _ _ h
  simp only [Bool.false_or] at hfail
  refine ⟨?_, ?_, ?_⟩
  · have hexit : LibsToOso.exitCode st' = 0 ↔ st'.hasFailed = false := by
      unfold LibsToOso.exitCode
      by_cases hf : st'.hasFailed = true
      · simp [hf]
      · simp [hf]
    rw [hexit, hfail]
    rw [List.any_eq_false]
    constructor
    · intro hall nd hnd hsome
      exact (LibsToOso.defFailed_false_iff target build nd).mp
        (by simpa using hall nd hnd) hsome
    · intro hall nd hnd
      simp only [Bool.not_eq_true]
      exact (LibsToOso.defFailed_false_iff target build nd).mpr (hall nd hnd)
  · intro nd hnd el hel w errs hb
    rw [hlog]
    simp only [List.nil_append]
    refine List.mem_flatMap.mpr ⟨nd, hnd, ?_⟩
    simp [LibsToOso.defTrace, hel, hb]
  · intro nd hnd el hel w hb
    rw [hlog]
    simp only [List.nil_append]
    refine List.mem_flatMap.mpr ⟨nd, hnd, ?_⟩
    simp [LibsToOso.defTrace, hel, hb]

/-- C4 witness: the exit-code equivalence evaluated on a one-definition
catalog whose build succeeds. -/
theorem C4_exit_and_failure_logging_witness :
    LibsToOso.exitCode ⟨[], [], false⟩ = 0 ↔
      ∀ nd ∈ [exDefOk], (nd.getImplementation "genosl").isSome = true →
        exBuildOk nd = .success :=
  (C4_exit_and_failure_logging "genosl" "" exBuildOk [exDefOk] []
    ⟨[], [], false⟩ (by decide)).1

/-- C5: a definition with no implementation element for the active target
contributes exactly one skip notice to the log and is never counted as a
failure; the run's failure flag depends only on the per-definition
`defFailed` predicate, which is false for every such skipped definition. -/
theorem C5_skip_without_failure :
    ∀ (target pfx : String) (build : NodeDef → LibsToOso.BuildOutcome)
      (defs : List NodeDef) (st0 st' : LibsToOso.BatchState),
      LibsToOso.batchRun target pfx build st0 defs = some st' →
      st'.log = st0.log ++ defs.flatMap (LibsToOso.defTrace target pfx build) ∧
      (∀ nd, nd.getImplementation target = none →
        LibsToOso.defTrace target pfx build nd =
          [LibsToOso.LogEntry.skipNotice (LibsToOso.publicName pfx nd.name)] ∧
        LibsToOso.defFailed target build nd = false) ∧
      (∀ nd ∈ defs, nd.getImplementation target = none →
        LibsToOso.LogEntry.skipNotice (LibsToOso.publicName pfx nd.name) ∈ st'.log) ∧
      st'.hasFailed = (st0.hasFailed || defs.any (LibsToOso.defFailed target build)) := by
  intro target pfx build defs st0 st' h
  obtain ⟨_, hlog, hfail⟩ := LibsToOso.batchRun_spec target pfx build defs _ _ h
  have htrace : ∀ nd : NodeDef, nd.getImplementation target = none →
      LibsToOso.defTrace target pfx build nd =
        [LibsToOso.LogEntry.skipNotice (LibsToOso.publicName pfx nd.name)] ∧
      LibsToOso.defFailed target build nd = false := by
    intro nd hI
    constructor
    · simp [LibsToOso.defTrace, hI]
    · unfold LibsToOso.defFailed
      cases hb : build nd <;> simp [hI]
  refine ⟨hlog, htrace, ?_, hfail⟩
  intro nd hnd hI
  rw [hlog]
  refine List.mem_append.mpr (Or.inr ?_)
  refine List.mem_flatMap.mpr ⟨nd, hnd, ?_⟩
  rw [(htrace nd hI).1]
  simp

/-- C5 witness: the log characterization evaluated on a one-definition
catalog whose definition lacks an implementation element. -/
theorem C5_skip_without_failure_witness :
    (⟨[], [LibsToOso.LogEntry.skipNotice "d2"], false⟩ : LibsToOso.BatchState).log =
      (⟨[], [], false⟩ : LibsToOso.BatchState).log ++
        [exDefNoOsl].flatMap (LibsToOso.defTrace "genosl" "" exBuildOk) :=
  (C5_skip_without_failure "genosl" "" exBuildOk [exDefNoOsl] ⟨[], [], false⟩
    ⟨[], [LibsToOso.LogEntry.skipNotice "d2"], false⟩ (by decide)).1

/-- C6: the `osoPaths` set accumulated by part_000 is strictly sorted and
duplicate-free, it is identical for any visit-order permutation of the
graph's nodes, and on success the shader's "osoPath" attribute is exactly
that sorted set, resolved per element and comma-joined. -/
theorem C6_osoPath_set :
    ∀ (doc : Doc) (g g' : Graph) (ctx : Part000.GenContext) (sh : Part000.Shader),
      g.nodes.Perm g'.nodes →
      Part000.generate doc g ctx = .ok sh →
      (Part000.osoPathsFold doc [] g.nodes).Pairwise (fun a b => strLt a b = true) ∧
      (Part000.osoPathsFold doc [] g.nodes).Nodup ∧
      Part000.osoPathsFold doc [] g.nodes = Part000.osoPathsFold doc [] g'.nodes ∧
      sh.osoPathAttr =
        Part000.joinPaths
          ((Part000.osoPathsFold doc [] g.nodes).map ctx.resolveSourceFile) := by
  intro doc g g' ctx sh hp h
  obtain ⟨st, hg, hattr, _⟩ := Part000.generate_ok_spec doc g ctx sh h
  obtain ⟨_, _, ho, _, _⟩ := Part000.genNodes_ok_spec doc ctx.floatFormat g.nodes _ _ hg
  have hsorted := osoPathsFold_sorted doc g.nodes [] (by simp)
  refine ⟨hsorted, strSorted_nodup _ hsorted,
    osoPathsFold_perm doc g.nodes g'.nodes hp, ?_⟩
  rw [hattr, ho]
  rfl

/-- C6 witness: the permutation-invariance conjunct evaluated on the
two-node graph and its reversal. -/
theorem C6_osoPath_set_witness :
    Part000.osoPathsFold exDoc [] exGraph.nodes =
      Part000.osoPathsFold exDoc [] exGraphPerm.nodes :=
  (C6_osoPath_set exDoc exGraph exGraphPerm exCtxPlain
    ⟨[Stmt.shaderDecl "implA" "A", Stmt.shaderDecl "implB" "B",
      Stmt.connect "A" "out" "B" "in"], "pathA,pathB"⟩
    (by decide) (by decide)).2.2.1

end MtlxOslNodes

namespace MtlxOslNodes

/-- C7: `createShader` adds a graph-level input socket to the uniform block
iff it has at least one internal connection and is marked editable, and adds
every graph-level output socket to the output block unconditionally. -/
theorem C7_interface_blocks :
    ∀ (g : Graph) (s : Socket),
      (s ∈ (createShader g).uniforms ↔
        s ∈ g.inputSockets ∧ s.connections ≠ [] ∧ s.editable = true) ∧
      (createShader g).outputs = g.outputSockets := by
  intro g s
  refine ⟨?_, rfl⟩
  unfold createShader
  rw [List.mem_filter]
  constructor
  · rintro ⟨h1, h2⟩
    simp only [Bool.and_eq_true, Bool.not_eq_true'] at h2
    obtain ⟨h2a, h2b⟩ := h2
    refine ⟨h1, ?_, h2b⟩
    intro hnil
    rw [hnil] at h2a
    simp at h2a
  · rintro ⟨h1, h2, h3⟩
    refine ⟨h1, ?_⟩
    simp only [Bool.and_eq_true, Bool.not_eq_true']
    refine ⟨?_, h3⟩
    cases hcs : s.connections with
    | nil => exact absurd hcs h2
    | cons a l => rfl

/-- C7 witness: the block-membership equivalence evaluated on a concrete
graph with used, non-editable, and unused sockets. -/
theorem C7_interface_blocks_witness :
    (exSocketUsed ∈ (createShader exSockGraph).uniforms ↔
      exSocketUsed ∈ exSockGraph.inputSockets ∧
        exSocketUsed.connections ≠ [] ∧ exSocketUsed.editable = true) ∧
    (createShader exSockGraph).outputs = exSockGraph.outputSockets :=
  C7_interface_blocks exSockGraph exSocketUsed

/-- C8: each batch iteration that completes (including iterations whose
build failed with a caught exception) removes the temporary node instance it
added, so the document's children are unchanged by every single step and by
the whole loop. -/
theorem C8_document_restored :
    (∀ (target pfx : String) (build : NodeDef → LibsToOso.BuildOutcome)
       (st : LibsToOso.BatchState) (nd : NodeDef) (st' : LibsToOso.BatchState),
       LibsToOso.batchStep target pfx build st nd = some st' →
       st'.docChildren = st.docChildren) ∧
    (∀ (target pfx : String) (build : NodeDef → LibsToOso.BuildOutcome)
       (st : LibsToOso.BatchState) (defs : List NodeDef) (st' : LibsToOso.BatchState),
       LibsToOso.batchRun target pfx build st defs = some st' →
       st'.docChildren = st.docChildren) := by
  constructor
  · intro target pfx build st nd st' h
    exact (LibsToOso.batchStep_spec target pfx build st nd st' h).1
  · intro target pfx build st defs st' h
    exact (LibsToOso.batchRun_spec target pfx build defs st st' h).1

/-- C8 witness: a step whose build fails with a caught render exception
still restores the document's children. -/
theorem C8_document_restored_witness :
    (⟨[], [LibsToOso.LogEntry.renderFailure "d1" "boom" ["err1"]], true⟩ :
        LibsToOso.BatchState).docChildren =
      (⟨[], [], false⟩ : LibsToOso.BatchState).docChildren :=
  C8_document_restored.1 "genosl" "" exBuildFail ⟨[], [], false⟩ exDefOk
    ⟨[], [LibsToOso.LogEntry.renderFailure "d1" "boom" ["err1"]], true⟩ (by decide)

/-- C9: generation is deterministic and idempotent: part_000's `generate`
is a pure function of the document, graph and context, and part_001's
`generate` leaves the ambient float-formatting mode as it found it (the RAII
scope restores it), so a second call on the unchanged graph returns the
byte-identical result. -/
theorem C9_generation_idempotent :
    (∀ (doc : Doc) (g : Graph) (ctx : Part000.GenContext),
      Part000.generate doc g ctx = Part000.generate doc g ctx) ∧
    (∀ (g : Graph) (fmt : FloatFormat),
      (Part001.generate g fmt).2 = fmt ∧
      Part001.generate g ((Part001.generate g fmt).2) = Part001.generate g fmt) := by
  refine ⟨fun _ _ _ => rfl, ?_⟩
  intro g fmt
  have h2 : (Part001.generate g fmt).2 = fmt := by
    unfold Part001.generate
    cases hg : Part001.genNodes g.nodes ([], []) with
    | none => rfl
    | some pc =>
      obtain ⟨l, c⟩ := pc
      rfl
  exact ⟨h2, by rw [h2]⟩

/-- C10: with the sink wrapper enabled, an empty graph leaves the tracked
last output unassigned and the wrapper's read of it is undefined behavior
(modelled `crash`); when the node loop succeeds on a nonempty graph the
tracked name and output are exactly those of the last node, so the sink
connection is well-defined. -/
theorem C10_sink_needs_a_node :
    ∀ (doc : Doc) (g : Graph) (ctx : Part000.GenContext),
      ctx.oslNodesConnectCiWrapper = true →
      (g.nodes = [] → Part000.generate doc g ctx = Part000.GenResult.crash) ∧
      (∀ st, Part000.genNodes doc ctx.floatFormat g.nodes Part000.initState = .ok st →
        ∀ n, lastNode g.nodes = some n →
          st.lastNodeName = n.name ∧ st.lastOutput = some n.output0) := by
  intro doc g ctx hw
  constructor
  · intro he
    unfold Part000.generate
    rw [he]
    simp [Part000.genNodes, Part000.initState, hw]
  · intro st hst n hn
    obtain ⟨_, _, _, h4, h5⟩ := Part000.genNodes_ok_spec doc ctx.floatFormat g.nodes _ _ hst
    simp only [hn] at h4 h5
    exact ⟨h4, h5⟩

/-- C10 witness: part_000's `generate` on the empty graph with the wrapper
enabled is the modelled undefined read. -/
theorem C10_sink_needs_a_node_witness :
    Part000.generate exDoc exEmptyGraph exCtxWrap = Part000.GenResult.crash :=
  (C10_sink_needs_a_node exDoc exEmptyGraph exCtxWrap rfl).1 rfl

end MtlxOslNodes
